import Mathlib

/-!
Verification of the M3U playlist cleaner (`clean_m3u.py`): a shallow
embedding of the probe (`test_stream_url`), the batch aggregator
(`test_channels_batch`), the playlist parser (`parse_m3u`), the worker
pool scheduling, and the `main` driver, together with theorems settling
the specified properties.
-/

namespace CleanM3u

/-! ### Character-list string helpers

The Python code uses `str.endswith`, substring containment (`in`),
`str.startswith`, `str.strip` and byte reads.  We model strings as
`String` / `List Char` and give structural, kernel-computable versions
of these operations.
-/

/-- `leadsL pat s` is true when the character list `pat` begins `s`
(the semantics of Python `s.startswith(pat)`). -/
def leadsL : List Char → List Char → Bool
  | [], _ => true
  | _ :: _, [] => false
  | p :: ps, c :: cs => p == c && leadsL ps cs

/-- `hasSubL pat s` is true when `pat` occurs as a contiguous sublist of
`s` (the semantics of Python `pat in s`). -/
def hasSubL (pat : List Char) : List Char → Bool
  | [] => leadsL pat []
  | c :: cs => leadsL pat (c :: cs) || hasSubL pat cs

/-- Python `pat in s` on strings. -/
def containsSub (s pat : String) : Bool := hasSubL pat.data s.data

/-- Python `s.startswith(pat)` on strings. -/
def startsWithStr (s pat : String) : Bool := leadsL pat.data s.data

/-- Python `s.endswith(suf)` on strings. -/
def endsWithStr (s suf : String) : Bool := leadsL suf.data.reverse s.data.reverse

/-- The whitespace characters stripped by Python `str.strip()` (ASCII
range; the playlist data is ASCII-framed). -/
def isSpace (c : Char) : Bool :=
  c = ' ' || c = '\t' || c = '\n' || c = '\r' || c = '\x0b' || c = '\x0c'

/-- Strip leading and trailing whitespace from a character list. -/
def stripChars (l : List Char) : List Char :=
  ((l.dropWhile isSpace).reverse.dropWhile isSpace).reverse

/-- Python `s.strip()` on strings. -/
def stripStr (s : String) : String := String.mk (stripChars s.data)

/-! ### Data model -/

/-- One playlist item: a raw `#EXTINF:` metadata line paired with a
stream URL (the dict `{'info': ..., 'url': ...}` built by `parse_m3u`). -/
structure ChannelEntry where
  info : String
  url : String
deriving DecidableEq, Repr

/-- The reasons a probe classifies an entry dead (spec §3 taxonomy).
Each constructor corresponds to one branch of `test_stream_url`:
a non-200 status or an `HTTPError`, a `URLError` or generic exception,
a `socket.timeout`, or a 200-status manifest whose first kilobyte lacks
all three content markers. -/
inductive DeadReason where
  | HttpStatus (code : Nat)
  | TransportError (msg : String)
  | Timeout
  | ContentMismatch
deriving DecidableEq, Repr

/-- The verdict attached to a channel entry by the probe. -/
inductive ProbeOutcome where
  | Working
  | Dead (reason : DeadReason)
deriving DecidableEq, Repr

/-- What one network request can come back as, mirroring the control
paths of `test_stream_url`: `urlopen` returns a response object with a
status and a body, or raises `urllib.error.HTTPError`,
`urllib.error.URLError`, `socket.timeout`, or some other exception. -/
inductive HttpResult where
  | response (status : Nat) (body : List Char)
  | httpError (code : Nat)
  | urlError (reason : String)
  | timeout
  | otherError (msg : String)
deriving DecidableEq, Repr

/-! ### Probe (`test_stream_url`, lines 55–93) -/

/-- The manifest test of line 72: `url.endswith('.m3u8') or
'playlist.m3u8' in url`.  Note it inspects the whole URL string, not
its path component. -/
def isManifestUrl (url : String) : Bool :=
  endsWithStr url ".m3u8" || containsSub url "playlist.m3u8"

/-- The content check of line 74 applied to the first 1024 bytes:
`'#EXTM3U' in content or '#EXT-X-' in content or 'http' in content`. -/
def hasMarker (content : List Char) : Bool :=
  hasSubL "#EXTM3U".data content || hasSubL "#EXT-X-".data content ||
    hasSubL "http".data content

/-- `test_stream_url` (lines 55–93): True when the stream is judged
working.  A 200 response on a manifest URL reads `response.read(1024)`
and requires a content marker; a 200 response otherwise is enough; every
other result — non-200 status, any exception — falls through to
`return False`. -/
def test_stream_url (url : String) (res : HttpResult) : Bool :=
  match res with
  | .response status body =>
    if status == 200 then
      if isManifestUrl url then hasMarker (body.take 1024)
      else true
    else false
  | .httpError _ => false
  | .urlError _ => false
  | .timeout => false
  | .otherError _ => false

/-- The probe result in the spec's `ProbeOutcome` taxonomy: the same
branch structure as `test_stream_url`, with each `False`-returning
branch labelled by the reason its `except` clause (or status check)
reports.  `test_stream_url` is its Boolean collapse
(`probe_outcome_working`). -/
def probe_outcome (url : String) (res : HttpResult) : ProbeOutcome :=
  match res with
  | .response status body =>
    if status == 200 then
      if isManifestUrl url then
        if hasMarker (body.take 1024) then .Working
        else .Dead .ContentMismatch
      else .Working
    else .Dead (.HttpStatus status)
  | .httpError code => .Dead (.HttpStatus code)
  | .urlError r => .Dead (.TransportError r)
  | .timeout => .Dead .Timeout
  | .otherError m => .Dead (.TransportError m)

/-- Consistency of the Boolean probe with its `ProbeOutcome` refinement. -/
theorem probe_outcome_working (url : String) (res : HttpResult) :
    test_stream_url url res = (probe_outcome url res == .Working) := by
  cases res with
  | response status body =>
    simp only [test_stream_url, probe_outcome]
    by_cases h : status == 200
    · by_cases hm : isManifestUrl url
      · by_cases hc : hasMarker (body.take 1024) <;> simp [h, hm, hc]
      · simp [h, hm]
    · simp [h]
  | httpError code => rfl
  | urlError r => rfl
  | timeout => rfl
  | otherError m => rfl

/-- The URL path component as the spec reads it: the part of the URL
before any query (`?`) or fragment (`#`).  The source code never
extracts a path; this definition exists only to state the spec's
"path ends in `.m3u8`" condition. -/
def pathChars : List Char → List Char
  | [] => []
  | c :: cs => if c = '?' || c = '#' then [] else c :: pathChars cs

/-- Modelled from the spec: the path of a URL, for the spec's phrase
"path ends in `.m3u8`" (the code itself tests the full URL string). -/
def url_path (url : String) : String := String.mk (pathChars url.data)

/-! ### Aggregator (`test_channels_batch`, lines 95–132)

The `as_completed` loop arrives at the aggregator as a list of
`(channel, future-result)` pairs in completion order; a future either
delivered the probe's Boolean or raised inside `future.result()`.
-/

/-- What `future.result()` yields for one channel: the probe's Boolean,
or an exception raised while awaiting the result. -/
inductive FutureResult where
  | ok (working : Bool)
  | raised (msg : String)
deriving DecidableEq, Repr

/-- Everything after the final comma of a character list (the match of
the regex `,([^,]+)$` before stripping), or `none` when the list has no
comma. -/
def afterLastComma : List Char → Option (List Char)
  | [] => none
  | c :: cs =>
    match afterLastComma cs with
    | some r => some r
    | none => if c = ',' then some cs else none

/-- The channel-name extraction of lines 123–124 (also 158–159):
`re.search(r',([^,]+)$', info)` needs a comma followed by at least one
character, so an info line ending in a comma — like one with no comma at
all — falls back to `"Unknown"`; a match is stripped of surrounding
whitespace. -/
def extract_channel_name (info : String) : String :=
  match afterLastComma info.data with
  | none => "Unknown"
  | some r => if r.isEmpty then "Unknown" else String.mk (stripChars r)

/-- The progress line of line 126: `[{i}/{n}] {status}: {channel_name}`. -/
def progress_line (i n : Nat) (status name : String) : String :=
  "[" ++ toString i ++ "/" ++ toString n ++ "] " ++ status ++ ": " ++ name

/-- The error line of line 130: `[{i}/{n}] ✗ ERROR: {url} - {e}`. -/
def error_line (i n : Nat) (url msg : String) : String :=
  "[" ++ toString i ++ "/" ++ toString n ++ "] ✗ ERROR: " ++ url ++ " - " ++ msg

/-- The body of the `as_completed` loop (lines 110–131), processing the
arrivals from position `i` of `n` onwards: each arrival is appended to
`working_channels` when its future returned True, to `dead_channels`
when it returned False or raised, and prints exactly one line. -/
def aggregate_arrivals (n : Nat) :
    Nat → List (ChannelEntry × FutureResult) →
      List ChannelEntry × List ChannelEntry × List String
  | _, [] => ([], [], [])
  | i, (ch, r) :: rest =>
    let p := aggregate_arrivals n (i + 1) rest
    match r with
    | .ok true =>
        (ch :: p.1, p.2.1,
          progress_line i n "✓ WORKING" (extract_channel_name ch.info) :: p.2.2)
    | .ok false =>
        (p.1, ch :: p.2.1,
          progress_line i n "✗ DEAD" (extract_channel_name ch.info) :: p.2.2)
    | .raised m =>
        (p.1, ch :: p.2.1, error_line i n ch.url m :: p.2.2)

/-- `test_channels_batch` (lines 95–132): the two partitions (and the
printed lines) produced by draining the completion stream `arrivals`,
enumerated from 1. -/
def test_channels_batch (arrivals : List (ChannelEntry × FutureResult)) :
    List ChannelEntry × List ChannelEntry × List String :=
  aggregate_arrivals arrivals.length 1 arrivals

/-! ### Playlist parser (`parse_m3u`, lines 28–53) -/

/-- The line loop of `parse_m3u` (lines 40–51), carrying `current_info`
(`none` initially and after each emitted pair): a stripped line starting
with `#EXTINF:` becomes the pending info; a nonempty stripped line not
starting with `#` while info is pending emits a channel; anything else
leaves the state unchanged. -/
def parse_m3u_go : Option String → List String → List ChannelEntry
  | _, [] => []
  | cur, l :: rest =>
    let line := stripStr l
    if startsWithStr line "#EXTINF:" then parse_m3u_go (some line) rest
    else
      match cur with
      | some info =>
        if !(line = "") && !startsWithStr line "#" then
          ⟨info, line⟩ :: parse_m3u_go none rest
        else parse_m3u_go (some info) rest
      | none => parse_m3u_go none rest

/-- `parse_m3u` (lines 28–53): `none` models an unreadable file, where
the `except` branch prints an error and returns `[]`; otherwise the
file's lines are scanned by `parse_m3u_go` with no pending info. -/
def parse_m3u : Option (List String) → List ChannelEntry
  | none => []
  | some lines => parse_m3u_go none lines

/-! ### Driver (`main`, lines 170–240) -/

/-- The output-path default of lines 182–183: `if not args.output:
args.output = 'cleaned_' + args.input_file`.  An omitted `-o` arrives as
`None` and an empty `-o ""` is equally falsy, so both take the default. -/
def resolve_output (inputFile : String) : Option String → String
  | none => "cleaned_" ++ inputFile
  | some o => if o = "" then "cleaned_" ++ inputFile else o

/-- The observable result of one `main` run: the exit code, the entries
handed to `test_channels_batch`, and whether the cleaned playlist and
the dead-links report were written (lines 230–238 attempt each write
exactly when its partition is nonempty). -/
structure RunResult where
  exitCode : Nat
  probed : List ChannelEntry
  wroteOutput : Bool
  wroteReport : Bool
deriving DecidableEq, Repr

/-- `main` (lines 170–240), abstracted over the file read (`fileLines`)
and the completion stream the pool delivers (`pr` assigns each parsed
entry its future's result): zero parsed channels return 1 before any
probing; otherwise the batch runs, the playlist is written when
`working_channels` is nonempty, the report when `dead_channels` is
nonempty, and the run returns 0. -/
def main_run (fileLines : Option (List String))
    (pr : ChannelEntry → FutureResult) : RunResult :=
  let channels := parse_m3u fileLines
  if channels.isEmpty then
    { exitCode := 1, probed := [], wroteOutput := false, wroteReport := false }
  else
    let res := test_channels_batch (channels.map fun c => (c, pr c))
    { exitCode := 0, probed := channels,
      wroteOutput := !res.1.isEmpty, wroteReport := !res.2.1.isEmpty }

/-! ### Worker pool (`ThreadPoolExecutor`, lines 102–107)

`test_channels_batch` submits every channel to a
`ThreadPoolExecutor(max_workers=W)` and drains `as_completed`.  The
executor's stateful scheduling is modelled as a step relation: a state
holds the submitted-but-not-started queue, the in-flight probes, and
the completed `(entry, result)` pairs; a probe may start only while
fewer than `W` are in flight, and any in-flight probe may finish.
-/

/-- The scheduling state of one batch: `pending` holds submitted
entries not yet picked up by a worker, `running` the probes in flight,
`completed` the finished `(entry, result)` pairs in completion order. -/
structure PoolState where
  pending : List ChannelEntry
  running : List ChannelEntry
  completed : List (ChannelEntry × FutureResult)
deriving Repr

/-- One scheduling step of `ThreadPoolExecutor(max_workers=W)`: `start`
moves the next submitted entry in flight, enabled only while fewer than
`W` probes run; `finish` resolves any in-flight probe with its future's
result and appends it to the completion stream. -/
inductive PoolStep (W : Nat) : PoolState → PoolState → Prop
  | start (e : ChannelEntry) (pend run comp) :
      run.length < W →
      PoolStep W ⟨e :: pend, run, comp⟩ ⟨pend, e :: run, comp⟩
  | finish (e : ChannelEntry) (r : FutureResult) (pend run₁ run₂ comp) :
      PoolStep W ⟨pend, run₁ ++ e :: run₂, comp⟩
        ⟨pend, run₁ ++ run₂, comp ++ [(e, r)]⟩

/-- The states a batch over input `channels` can reach: the initial
state has every entry submitted (lines 104–107 submit all of them, in
input order) and nothing started. -/
inductive PoolReach (W : Nat) (channels : List ChannelEntry) : PoolState → Prop
  | init : PoolReach W channels ⟨channels, [], []⟩
  | step {s t} : PoolReach W channels s → PoolStep W s t → PoolReach W channels t

/-! ### Probe theorems (C2, C3, C4) -/

/-- C2 counterexample: the claim gates the manifest content check on the
URL **path** ending in `.m3u8`, but line 72 inspects the whole URL
string.  For `http://host/live.m3u8?token=junk` the path ends in
`.m3u8` and the 200-status body `<html>error</html>` holds none of the
three markers, so the claim demands `Dead(ContentMismatch)` — yet the
code takes the non-manifest branch and returns Working. -/
theorem c2_counterexample :
    endsWithStr (url_path "http://host/live.m3u8?token=junk") ".m3u8" = true
    ∧ containsSub "http://host/live.m3u8?token=junk" "playlist.m3u8" = false
    ∧ hasMarker (("<html>error</html>".data).take 1024) = false
    ∧ probe_outcome "http://host/live.m3u8?token=junk"
        (.response 200 "<html>error</html>".data) = .Working := by
  decide

/-- C2 (amended): for every URL the **string** of which ends in `.m3u8`
or contains `playlist.m3u8`, a 200 response is classified from the first
1024 bytes of the body alone; none of `#EXTM3U`, `#EXT-X-`, `http`
present gives `Dead(ContentMismatch)`, and `#EXTM3U` present gives
`Working`. -/
theorem c2_manifest_content (url : String) (body : List Char)
    (h : isManifestUrl url = true) :
    (hasMarker (body.take 1024) = false →
        probe_outcome url (.response 200 body) = .Dead .ContentMismatch)
    ∧ (hasSubL "#EXTM3U".data (body.take 1024) = true →
        probe_outcome url (.response 200 body) = .Working)
    ∧ probe_outcome url (.response 200 body) =
        probe_outcome url (.response 200 (body.take 1024)) := by
  refine ⟨fun hm => ?_, fun hm => ?_, ?_⟩
  · simp [probe_outcome, h, hm]
  · have : hasMarker (body.take 1024) = true := by
      simp [hasMarker, hm]
    simp [probe_outcome, h, this]
  · simp [probe_outcome, h, List.take_take]

/-- C2 witness: a playlist URL whose body starts with `#EXTM3U` is
Working, and one whose body is an HTML error page is a content
mismatch. -/
theorem c2_manifest_content_witness :
    probe_outcome "http://host/playlist.m3u8"
        (.response 200 "#EXTM3U".data) = .Working
    ∧ probe_outcome "http://host/playlist.m3u8"
        (.response 200 "<html>error</html>".data) = .Dead .ContentMismatch :=
  ⟨(c2_manifest_content "http://host/playlist.m3u8" "#EXTM3U".data
      (by decide)).2.1 (by decide),
   (c2_manifest_content "http://host/playlist.m3u8" "<html>error</html>".data
      (by decide)).1 (by decide)⟩

/-- C3 counterexample: `http://host/video.ts?f=a.m3u8` has a path not
ending in `.m3u8` and contains no `playlist.m3u8`, so the claim demands
that a 200 response alone is Working with no body read — but line 72
matches `url.endswith('.m3u8')` against the query string, reads the
body, and classifies it `Dead(ContentMismatch)`. -/
theorem c3_counterexample :
    endsWithStr (url_path "http://host/video.ts?f=a.m3u8") ".m3u8" = false
    ∧ containsSub "http://host/video.ts?f=a.m3u8" "playlist.m3u8" = false
    ∧ probe_outcome "http://host/video.ts?f=a.m3u8"
        (.response 200 "garbage".data) = .Dead .ContentMismatch := by
  decide

/-- C3 (amended): for every URL the **string** of which neither ends in
`.m3u8` nor contains `playlist.m3u8`, status 200 alone is Working for
any body; any response with status ≠ 200 is `Dead(HttpStatus(status))`;
an `HTTPError` with code `c` is `Dead(HttpStatus(c))` — in particular
404 always yields `Dead(HttpStatus(404))`. -/
theorem c3_nonmanifest_status (url : String) (body : List Char)
    (status code : Nat) (h : isManifestUrl url = false) :
    probe_outcome url (.response 200 body) = .Working
    ∧ (status ≠ 200 →
        probe_outcome url (.response status body) = .Dead (.HttpStatus status))
    ∧ probe_outcome url (.httpError code) = .Dead (.HttpStatus code)
    ∧ probe_outcome url (.httpError 404) = .Dead (.HttpStatus 404) := by
  refine ⟨by simp [probe_outcome, h], fun hs => ?_, rfl, rfl⟩
  have hb : (status == 200) = false := by simpa using hs
  simp [probe_outcome, hb]

/-- C3 witness: a plain `.ts` stream URL with a 200 response is Working,
and with an HTTP 404 it is `Dead(HttpStatus(404))`. -/
theorem c3_nonmanifest_status_witness :
    probe_outcome "http://host/stream.ts" (.response 200 []) = .Working
    ∧ probe_outcome "http://host/stream.ts" (.response 404 [])
        = .Dead (.HttpStatus 404)
    ∧ probe_outcome "http://host/stream.ts" (.httpError 404)
        = .Dead (.HttpStatus 404) :=
  ⟨(c3_nonmanifest_status "http://host/stream.ts" [] 404 404 (by decide)).1,
   (c3_nonmanifest_status "http://host/stream.ts" [] 404 404 (by decide)).2.1
      (by decide),
   (c3_nonmanifest_status "http://host/stream.ts" [] 404 404 (by decide)).2.2.2⟩

/-- C4: the probe never throws past its boundary — for every URL and
every way the request can go, the probe yields a definite
`ProbeOutcome`; each exception path (`HTTPError`, `URLError`,
`socket.timeout`, any other exception) is absorbed into the matching
`Dead` verdict, and `test_stream_url`'s Boolean is exactly "the outcome
is Working", so nothing reaches the aggregator as an exception. -/
theorem c4_probe_total (url : String) (res : HttpResult) (code : Nat)
    (reason msg : String) :
    (probe_outcome url res = .Working
      ∨ ∃ r, probe_outcome url res = .Dead r)
    ∧ test_stream_url url res = (probe_outcome url res == .Working)
    ∧ probe_outcome url (.httpError code) = .Dead (.HttpStatus code)
    ∧ probe_outcome url (.urlError reason) = .Dead (.TransportError reason)
    ∧ probe_outcome url .timeout = .Dead .Timeout
    ∧ probe_outcome url (.otherError msg) = .Dead (.TransportError msg) := by
  refine ⟨?_, probe_outcome_working url res, rfl, rfl, rfl, rfl⟩
  cases h : probe_outcome url res with
  | Working => exact Or.inl rfl
  | Dead r => exact Or.inr ⟨r, rfl⟩

/-! ### Aggregator theorems (C1, C7) -/

/-- Each drained arrival lands in exactly one partition: the two
partition lengths sum to the number of arrivals. -/
theorem aggregate_length (n : Nat) (i : Nat)
    (xs : List (ChannelEntry × FutureResult)) :
    (aggregate_arrivals n i xs).1.length
      + (aggregate_arrivals n i xs).2.1.length = xs.length := by
  induction xs generalizing i with
  | nil => rfl
  | cons x rest ih =>
    obtain ⟨ch, r⟩ := x
    have h := ih (i + 1)
    cases r with
    | ok b =>
      cases b <;> (simp only [aggregate_arrivals, List.length_cons]; omega)
    | raised m =>
      simp only [aggregate_arrivals, List.length_cons]
      omega

/-- The two partitions together are a permutation of the arrived
entries: nothing is dropped and nothing is duplicated. -/
theorem aggregate_perm (n : Nat) (i : Nat)
    (xs : List (ChannelEntry × FutureResult)) :
    List.Perm
      ((aggregate_arrivals n i xs).1 ++ (aggregate_arrivals n i xs).2.1)
      (xs.map Prod.fst) := by
  induction xs generalizing i with
  | nil => rfl
  | cons x rest ih =>
    obtain ⟨ch, r⟩ := x
    cases r with
    | ok b =>
      cases b with
      | false =>
        simp only [aggregate_arrivals, List.map_cons]
        exact List.perm_middle.trans ((ih (i + 1)).cons ch)
      | true =>
        simp only [aggregate_arrivals, List.map_cons, List.cons_append]
        exact (ih (i + 1)).cons ch
    | raised m =>
      simp only [aggregate_arrivals, List.map_cons]
      exact List.perm_middle.trans ((ih (i + 1)).cons ch)

/-- An arrival whose future raised is still appended to the dead
partition (lines 128–130). -/
theorem aggregate_raised_mem (n : Nat) (i : Nat)
    (xs : List (ChannelEntry × FutureResult)) (e : ChannelEntry)
    (m : String) (h : (e, FutureResult.raised m) ∈ xs) :
    e ∈ (aggregate_arrivals n i xs).2.1 := by
  induction xs generalizing i with
  | nil => cases h
  | cons x rest ih =>
    obtain ⟨ch, r⟩ := x
    rcases List.mem_cons.mp h with hx | hx
    · cases hx
      simp [aggregate_arrivals]
    · cases r with
      | ok b => cases b <;> simp [aggregate_arrivals, ih (i + 1) hx]
      | raised m2 => simp [aggregate_arrivals, ih (i + 1) hx]

/-- C1: over any completion stream, `|working| + |dead| = |input|`; the
two partitions together are exactly the arrived entries (no entry
dropped, none counted twice); and an entry whose `future.result()`
raised is still appended to the dead partition, the loop continuing
over the remaining arrivals. -/
theorem c1_partition_totality (arrivals : List (ChannelEntry × FutureResult)) :
    (test_channels_batch arrivals).1.length
        + (test_channels_batch arrivals).2.1.length = arrivals.length
    ∧ List.Perm
        ((test_channels_batch arrivals).1 ++ (test_channels_batch arrivals).2.1)
        (arrivals.map Prod.fst)
    ∧ ∀ e m, (e, FutureResult.raised m) ∈ arrivals →
        e ∈ (test_channels_batch arrivals).2.1 :=
  ⟨aggregate_length arrivals.length 1 arrivals,
   aggregate_perm arrivals.length 1 arrivals,
   fun e m h => aggregate_raised_mem arrivals.length 1 arrivals e m h⟩

/-- Example entries used by the concrete witnesses. -/
def exEntryA : ChannelEntry := ⟨"#EXTINF:-1,Alpha", "http://host/a.ts"⟩

/-- A second example entry, whose future raises. -/
def exEntryB : ChannelEntry := ⟨"#EXTINF:-1,Beta", "http://host/b.ts"⟩

/-- A concrete completion stream: one working probe, one future that
raised while being awaited, one dead probe. -/
def exArrivals : List (ChannelEntry × FutureResult) :=
  [(exEntryA, .ok true), (exEntryB, .raised "pool fault"),
   (⟨"#EXTINF:-1,Gamma", "http://host/c.ts"⟩, .ok false)]

/-- C1 witness: on the concrete stream the entry whose future raised
ends up in the dead partition. -/
theorem c1_partition_totality_witness :
    exEntryB ∈ (test_channels_batch exArrivals).2.1 :=
  (c1_partition_totality exArrivals).2.2 exEntryB "pool fault" (by decide)

/-- A list without a comma has nothing after a last comma. -/
theorem afterLastComma_of_not_mem (l : List Char) (h : ',' ∉ l) :
    afterLastComma l = none := by
  induction l with
  | nil => rfl
  | cons c cs ih =>
    have hc : ¬ c = ',' := by
      intro e
      subst e
      exact h (List.mem_cons_self _ _)
    have hcs : ',' ∉ cs := fun m => h (List.mem_cons_of_mem c m)
    simp [afterLastComma, ih hcs, hc]

/-- Splitting at the final comma: when `post` holds no comma, the text
after the last comma of `pre ++ ',' :: post` is exactly `post`. -/
theorem afterLastComma_append (pre post : List Char) (h : ',' ∉ post) :
    afterLastComma (pre ++ ',' :: post) = some post := by
  induction pre with
  | nil => simp [afterLastComma, afterLastComma_of_not_mem post h]
  | cons c cs ih => simp [afterLastComma, ih]

/-- The aggregator prints exactly one line per drained arrival. -/
theorem aggregate_lines_length (n : Nat) (i : Nat)
    (xs : List (ChannelEntry × FutureResult)) :
    (aggregate_arrivals n i xs).2.2.length = xs.length := by
  induction xs generalizing i with
  | nil => rfl
  | cons x rest ih =>
    obtain ⟨ch, r⟩ := x
    cases r with
    | ok b => cases b <;> simp [aggregate_arrivals, ih (i + 1)]
    | raised m => simp [aggregate_arrivals, ih (i + 1)]

/-- C7 counterexample: the claim says the printed name is the text after
the final comma, with `"Unknown"` only when the info line has no comma.
But the regex `,([^,]+)$` needs at least one character after the comma,
so `"#EXTINF:-1,"` — which has a comma, with `""` after it — prints
`"Unknown"`; and the matched text is stripped, so `"#EXTINF:-1, News "`
prints `"News"`, not `" News "`. -/
theorem c7_counterexample :
    hasSubL ",".data "#EXTINF:-1,".data = true
    ∧ afterLastComma "#EXTINF:-1,".data = some []
    ∧ extract_channel_name "#EXTINF:-1," = "Unknown"
    ∧ afterLastComma "#EXTINF:-1, News ".data = some " News ".data
    ∧ extract_channel_name "#EXTINF:-1, News " = "News" := by
  decide

/-- C7 (amended): each arriving `(entry, ok-outcome)` pair is appended
to `working` iff the outcome is Working and otherwise to `dead`; exactly
one progress line is emitted per arrival, carrying the 1-based index,
the verdict glyph and the channel name; and the name is the
whitespace-stripped text after the final comma of the info line, or the
literal `"Unknown"` when the info line has no comma or nothing follows
its final comma. -/
theorem c7_aggregator_step (n i : Nat) (ch : ChannelEntry) (b : Bool)
    (rest : List (ChannelEntry × FutureResult)) :
    (aggregate_arrivals n i ((ch, FutureResult.ok b) :: rest)).1
        = (if b then [ch] else []) ++ (aggregate_arrivals n (i + 1) rest).1
    ∧ (aggregate_arrivals n i ((ch, FutureResult.ok b) :: rest)).2.1
        = (if b then [] else [ch]) ++ (aggregate_arrivals n (i + 1) rest).2.1
    ∧ (aggregate_arrivals n i ((ch, FutureResult.ok b) :: rest)).2.2
        = progress_line i n (if b then "✓ WORKING" else "✗ DEAD")
            (extract_channel_name ch.info)
          :: (aggregate_arrivals n (i + 1) rest).2.2
    ∧ (aggregate_arrivals n i ((ch, FutureResult.ok b) :: rest)).2.2.length
        = ((ch, FutureResult.ok b) :: rest).length
    ∧ (∀ pre post, ch.info.data = pre ++ ',' :: post → ',' ∉ post →
        post ≠ [] → extract_channel_name ch.info = String.mk (stripChars post))
    ∧ (',' ∉ ch.info.data → extract_channel_name ch.info = "Unknown")
    ∧ (∀ pre, ch.info.data = pre ++ [','] →
        extract_channel_name ch.info = "Unknown") := by
  refine ⟨?_, ?_, ?_, aggregate_lines_length n i _, ?_, ?_, ?_⟩
  · cases b <;> simp [aggregate_arrivals]
  · cases b <;> simp [aggregate_arrivals]
  · cases b <;> simp [aggregate_arrivals]
  · intro pre post he hpost hne
    simp [extract_channel_name, he, afterLastComma_append pre post hpost, hne]
  · intro h
    simp [extract_channel_name, afterLastComma_of_not_mem _ h]
  · intro pre he
    have : afterLastComma (ch.info.data) = some [] := by
      rw [he]
      exact afterLastComma_append pre [] (by simp)
    simp [extract_channel_name, this]

/-- C7 witness: on the concrete arrival of `exEntryA` the name is the
stripped text after the final comma, and one WORKING line is printed. -/
theorem c7_aggregator_step_witness :
    extract_channel_name "#EXTINF:-1,Alpha" = String.mk (stripChars "Alpha".data)
    ∧ (aggregate_arrivals 1 1 [(exEntryA, FutureResult.ok true)]).2.2
        = [progress_line 1 1 "✓ WORKING" (extract_channel_name "#EXTINF:-1,Alpha")] := by
  have h := c7_aggregator_step 1 1 exEntryA true []
  constructor
  · exact h.2.2.2.2.1 "#EXTINF:-1".data "Alpha".data (by decide) (by decide)
      (by decide)
  · simp [exEntryA, aggregate_arrivals]

/-! ### Parser theorems (C8) -/

/-- A list beginning with `p :: ps` in particular begins with `p`. -/
theorem leadsL_cons_of (p : Char) (ps l : List Char)
    (h : leadsL (p :: ps) l = true) : leadsL [p] l = true := by
  cases l with
  | nil => simp [leadsL] at h
  | cons c cs =>
    simp [leadsL] at h ⊢
    exact h.1

/-- A line starting with `#EXTINF:` starts with `#`. -/
theorem startsWithStr_hash (s : String)
    (h : startsWithStr s "#EXTINF:" = true) : startsWithStr s "#" = true := by
  have e : ("#EXTINF:" : String).data = '#' :: ("EXTINF:" : String).data := by
    decide
  have e2 : ("#" : String).data = ['#'] := by decide
  unfold startsWithStr at h ⊢
  rw [e] at h
  rw [e2]
  exact leadsL_cons_of _ _ _ h

/-- Lines that strip to empty, or to a comment that is not an
`#EXTINF:` line, leave the parser state untouched (lines 40–51: neither
branch of the `if`/`elif` fires). -/
theorem parse_skip_seps (info url : String) (rest seps : List String)
    (hseps : ∀ s ∈ seps, stripStr s = "" ∨
      (startsWithStr (stripStr s) "#" = true
        ∧ startsWithStr (stripStr s) "#EXTINF:" = false)) :
    parse_m3u_go (some info) (seps ++ url :: rest)
      = parse_m3u_go (some info) (url :: rest) := by
  induction seps with
  | nil => rfl
  | cons s ss ih =>
    have hs := hseps s (List.mem_cons_self _ _)
    have hss := fun x hx => hseps x (List.mem_cons_of_mem s hx)
    rcases hs with h1 | ⟨h2, h3⟩
    · have hf : startsWithStr "" "#EXTINF:" = false := by decide
      simp [parse_m3u_go, h1, hf, ih hss]
    · simp [parse_m3u_go, h3, h2, ih hss]

/-- C8: an `#EXTINF:` line followed (across blank lines and non-EXTINF
comment lines) by a nonempty non-`#` line yields exactly the channel
pairing that metadata with that URL, and parsing continues in order on
the remaining lines; an unreadable file parses to the empty list instead
of raising. -/
theorem c8_parse_pairs (info url : String) (seps rest : List String)
    (hinfo : startsWithStr (stripStr info) "#EXTINF:" = true)
    (hseps : ∀ s ∈ seps, stripStr s = "" ∨
      (startsWithStr (stripStr s) "#" = true
        ∧ startsWithStr (stripStr s) "#EXTINF:" = false))
    (hurl1 : ¬ stripStr url = "")
    (hurl2 : startsWithStr (stripStr url) "#" = false) :
    parse_m3u (some (info :: (seps ++ url :: rest)))
      = ⟨stripStr info, stripStr url⟩ :: parse_m3u_go none rest
    ∧ parse_m3u none = [] := by
  constructor
  · show parse_m3u_go none (info :: (seps ++ url :: rest)) = _
    have h1 : parse_m3u_go none (info :: (seps ++ url :: rest))
        = parse_m3u_go (some (stripStr info)) (seps ++ url :: rest) := by
      simp [parse_m3u_go, hinfo]
    rw [h1, parse_skip_seps (stripStr info) url rest seps hseps]
    have hn : startsWithStr (stripStr url) "#EXTINF:" = false := by
      cases he : startsWithStr (stripStr url) "#EXTINF:"
      · rfl
      · rw [startsWithStr_hash (stripStr url) he] at hurl2
        cases hurl2
    simp [parse_m3u_go, hn, hurl1, hurl2]
  · rfl

/-- C8 witness: a well-formed fragment with a blank line and a comment
between the metadata and the URL parses to the single expected channel,
whitespace stripped; a failed file read parses to `[]`. -/
theorem c8_parse_pairs_witness :
    parse_m3u (some ["#EXTINF:-1,Alpha", "", "#group", " http://host/a.ts "])
      = [⟨"#EXTINF:-1,Alpha", "http://host/a.ts"⟩]
    ∧ parse_m3u none = [] := by
  have h := c8_parse_pairs "#EXTINF:-1,Alpha" " http://host/a.ts " ["", "#group"] []
    (by decide) (by decide) (by decide) (by decide)
  exact ⟨h.1.trans (by decide), h.2⟩

/-! ### Driver theorems (C6, C9, C10) -/

/-- C6: `main` returns 1 and probes nothing when parsing yields zero
channels, and returns 0 whenever parsing yields at least one channel —
whatever the probes then report. -/
theorem c6_exit_codes (fileLines : Option (List String))
    (pr : ChannelEntry → FutureResult) :
    (parse_m3u fileLines = [] →
      (main_run fileLines pr).exitCode = 1 ∧ (main_run fileLines pr).probed = [])
    ∧ (¬ parse_m3u fileLines = [] → (main_run fileLines pr).exitCode = 0) := by
  constructor
  · intro h
    simp [main_run, h]
  · intro h
    simp [main_run, h]

/-- C6 witness: an empty file exits 1; a one-channel file whose only
probe reports dead still exits 0. -/
theorem c6_exit_codes_witness :
    (main_run (some []) (fun _ => FutureResult.ok false)).exitCode = 1
    ∧ (main_run (some []) (fun _ => FutureResult.ok false)).probed = []
    ∧ (main_run (some ["#EXTINF:-1,Alpha", "http://host/a.ts"])
        (fun _ => FutureResult.ok false)).exitCode = 0 := by
  have h1 := (c6_exit_codes (some []) (fun _ => FutureResult.ok false)).1 (by decide)
  have h2 := (c6_exit_codes (some ["#EXTINF:-1,Alpha", "http://host/a.ts"])
    (fun _ => FutureResult.ok false)).2 (by decide)
  exact ⟨h1.1, h1.2, h2⟩

/-- When every future reports False, the working partition stays empty. -/
theorem aggregate_all_dead (n : Nat) (i : Nat)
    (xs : List (ChannelEntry × FutureResult))
    (h : ∀ x ∈ xs, x.2 = FutureResult.ok false) :
    (aggregate_arrivals n i xs).1 = [] := by
  induction xs generalizing i with
  | nil => rfl
  | cons x rest ih =>
    obtain ⟨ch, r⟩ := x
    have hx := h (ch, r) (List.mem_cons_self _ _)
    have hrest := fun y hy => h y (List.mem_cons_of_mem _ hy)
    cases hx
    simp [aggregate_arrivals, ih (i + 1) hrest]

/-- C9: the cleaned playlist is written exactly when the run completed
with a nonempty working partition, the dead-links report exactly when it
completed with a nonempty dead partition; in particular a run in which
every probe reports dead writes no playlist. -/
theorem c9_write_conditions (fileLines : Option (List String))
    (pr : ChannelEntry → FutureResult) :
    ((main_run fileLines pr).wroteOutput = true ↔
      ¬ parse_m3u fileLines = []
        ∧ ¬ (test_channels_batch
              ((parse_m3u fileLines).map fun c => (c, pr c))).1 = [])
    ∧ ((main_run fileLines pr).wroteReport = true ↔
      ¬ parse_m3u fileLines = []
        ∧ ¬ (test_channels_batch
              ((parse_m3u fileLines).map fun c => (c, pr c))).2.1 = [])
    ∧ ((∀ c, pr c = FutureResult.ok false) →
      (main_run fileLines pr).wroteOutput = false) := by
  refine ⟨?_, ?_, ?_⟩
  · by_cases h : parse_m3u fileLines = [] <;> simp [main_run, h]
  · by_cases h : parse_m3u fileLines = [] <;> simp [main_run, h]
  · intro hall
    by_cases h : parse_m3u fileLines = []
    · simp [main_run, h]
    · have hw : (test_channels_batch
          ((parse_m3u fileLines).map fun c => (c, pr c))).1 = [] := by
        apply aggregate_all_dead
        intro x hx
        rcases List.mem_map.mp hx with ⟨c, _, rfl⟩
        exact hall c
      simp [main_run, h, test_channels_batch] at hw ⊢
      simp [hw]

/-- C9 witness: a one-channel run whose probe reports dead attempts no
playlist write but does write the report. -/
theorem c9_write_conditions_witness :
    (main_run (some ["#EXTINF:-1,Alpha", "http://host/a.ts"])
        (fun _ => FutureResult.ok false)).wroteOutput = false
    ∧ (main_run (some ["#EXTINF:-1,Alpha", "http://host/a.ts"])
        (fun _ => FutureResult.ok false)).wroteReport = true := by
  have h := c9_write_conditions (some ["#EXTINF:-1,Alpha", "http://host/a.ts"])
    (fun _ => FutureResult.ok false)
  exact ⟨h.2.2 (fun c => rfl), h.2.1.mpr ⟨by decide, by decide⟩⟩

/-- C10 counterexample: the claim says a supplied `-o` value is used
unchanged, but `if not args.output:` treats the supplied empty string as
absent and replaces it with the default. -/
theorem c10_counterexample :
    resolve_output "list.m3u" (some "") = "cleaned_list.m3u"
    ∧ ¬ resolve_output "list.m3u" (some "") = "" := by
  decide

/-- C10 (amended): with `-o` omitted — or supplied empty, which
`if not args.output:` cannot tell apart — the output path is the literal
`cleaned_` prepended to the input path (so not the help text's fixed
`cleaned_playlist.m3u`, unless the input is exactly `playlist.m3u`);
a non-empty supplied value is used unchanged. -/
theorem c10_output_default (inputFile o : String) :
    resolve_output inputFile none = "cleaned_" ++ inputFile
    ∧ resolve_output inputFile (some "") = "cleaned_" ++ inputFile
    ∧ (¬ o = "" → resolve_output inputFile (some o) = o)
    ∧ (¬ inputFile = "playlist.m3u" →
        ¬ resolve_output inputFile none = "cleaned_playlist.m3u") := by
  refine ⟨rfl, rfl, fun h => by simp [resolve_output, h], fun h hc => h ?_⟩
  have hc2 : ("cleaned_" : String) ++ inputFile = "cleaned_playlist.m3u" := hc
  have hd := congrArg String.data hc2
  rw [String.data_append] at hd
  have he : ("cleaned_playlist.m3u" : String).data
      = ("cleaned_" : String).data ++ ("playlist.m3u" : String).data := by
    decide
  rw [he] at hd
  exact String.ext (List.append_cancel_left hd)

/-- C10 witness: the default path for `list.m3u`, a supplied non-empty
path, and the default differing from the help text's fixed name. -/
theorem c10_output_default_witness :
    resolve_output "list.m3u" none = "cleaned_list.m3u"
    ∧ resolve_output "list.m3u" (some "out.m3u") = "out.m3u"
    ∧ ¬ resolve_output "list.m3u" none = "cleaned_playlist.m3u" := by
  have h := c10_output_default "list.m3u" "out.m3u"
  exact ⟨h.1.trans (by decide), h.2.2.1 (by decide), h.2.2.2 (by decide)⟩

/-! ### Worker-pool theorems (C5) -/

/-- Pull an element out of the middle of an appended list, up to
permutation. -/
theorem perm_pull (e : ChannelEntry) (a b c d : List ChannelEntry) :
    List.Perm (a ++ (b ++ e :: c) ++ d) (e :: (a ++ (b ++ c) ++ d)) := by
  simp only [List.append_assoc, List.cons_append]
  refine List.Perm.trans (List.Perm.append_left a ?_) List.perm_middle
  exact List.perm_middle

/-- Pull a final element to the front, up to permutation. -/
theorem perm_pull_last (e : ChannelEntry) (a b c : List ChannelEntry) :
    List.Perm (a ++ b ++ (c ++ [e])) (e :: (a ++ b ++ c)) := by
  have h := perm_pull e a (b ++ c) [] []
  simpa [List.append_assoc] using h

/-- Ceiling invariant: no reachable pool state has more than `W` probes
in flight — `start` is enabled only below the ceiling and `finish` only
shrinks the in-flight set. -/
theorem pool_ceiling {W : Nat} {channels : List ChannelEntry} {s : PoolState}
    (h : PoolReach W channels s) : s.running.length ≤ W := by
  induction h with
  | init => exact Nat.zero_le W
  | step hr hs ih =>
    cases hs with
    | start e pend run comp hlt => exact hlt
    | finish e r pend run₁ run₂ comp =>
      simp only [List.length_append, List.length_cons] at ih ⊢
      omega

/-- Conservation: in every reachable pool state the submitted, in-flight
and completed entries together are a permutation of the input list. -/
theorem pool_conservation {W : Nat} {channels : List ChannelEntry}
    {s : PoolState} (h : PoolReach W channels s) :
    List.Perm (s.pending ++ s.running ++ s.completed.map Prod.fst) channels := by
  induction h with
  | init => simp
  | step hr hs ih =>
    cases hs with
    | start e pend run comp hlt =>
      exact (perm_pull e pend [] run (comp.map Prod.fst)).trans ih
    | finish e r pend run₁ run₂ comp =>
      refine List.Perm.trans ?_
        ((perm_pull e pend run₁ run₂ (comp.map Prod.fst)).symm.trans ih)
      simp only [List.map_append, List.map_cons, List.map_nil]
      exact perm_pull_last e pend (run₁ ++ run₂) (comp.map Prod.fst)

/-- The pool's termination measure: starting a probe trades two pending
units for one running unit, finishing removes a running unit. -/
def poolMeasure (s : PoolState) : Nat :=
  2 * s.pending.length + s.running.length

/-- Progress: while anything is pending or in flight (and `W > 0`, as
`ThreadPoolExecutor` requires), some step is enabled. -/
theorem pool_progress (W : Nat) (s : PoolState) (hW : 0 < W)
    (hne : ¬ s.pending = [] ∨ ¬ s.running = []) : ∃ t, PoolStep W s t := by
  obtain ⟨pend, run, comp⟩ := s
  cases run with
  | cons r rs =>
    exact ⟨_, PoolStep.finish r (FutureResult.ok true) pend [] rs comp⟩
  | nil =>
    cases pend with
    | nil => simp at hne
    | cons e ps => exact ⟨_, PoolStep.start e ps [] comp hW⟩

/-- C5: in every state reachable by the pool over any input, at most `W`
probes are in flight; the submitted, in-flight and completed entries are
always exactly the input entries; a drained terminal state has completed
every input entry exactly once; while entries remain (and `W > 0`) a
step is enabled; and every step decreases the measure, so every run
reaches that terminal state. -/
theorem c5_concurrency_ceiling (W : Nat) (channels : List ChannelEntry)
    (s : PoolState) (h : PoolReach W channels s) :
    s.running.length ≤ W
    ∧ List.Perm (s.pending ++ s.running ++ s.completed.map Prod.fst) channels
    ∧ (s.pending = [] → s.running = [] →
        List.Perm (s.completed.map Prod.fst) channels)
    ∧ (0 < W → (¬ s.pending = [] ∨ ¬ s.running = []) → ∃ t, PoolStep W s t)
    ∧ (∀ t, PoolStep W s t → poolMeasure t < poolMeasure s) := by
  refine ⟨pool_ceiling h, pool_conservation h, fun h1 h2 => ?_,
    fun hW hne => pool_progress W s hW hne, fun t ht => ?_⟩
  · have hc := pool_conservation h
    rw [h1, h2] at hc
    simpa using hc
  · cases ht with
    | start e pend run comp hlt =>
      simp only [poolMeasure, List.length_cons]
      omega
    | finish e r pend run₁ run₂ comp =>
      simp only [poolMeasure, List.length_append, List.length_cons]
      omega

/-- C5 witness: with `W = 1` and one entry, the run
start → finish reaches the drained terminal state; the ceiling holds
there and the completed entries are exactly the input. -/
theorem c5_concurrency_ceiling_witness :
    (PoolState.mk [] [] [(exEntryA, FutureResult.ok true)]).running.length ≤ 1
    ∧ List.Perm
        ((PoolState.mk [] [] [(exEntryA, FutureResult.ok true)]).completed.map
          Prod.fst)
        [exEntryA] := by
  have hreach : PoolReach 1 [exEntryA] ⟨[], [], [(exEntryA, .ok true)]⟩ :=
    PoolReach.step
      (PoolReach.step PoolReach.init
        (PoolStep.start exEntryA [] [] [] (by decide)))
      (PoolStep.finish exEntryA (.ok true) [] [] [] [])
  have h := c5_concurrency_ceiling 1 [exEntryA] _ hreach
  exact ⟨h.1, h.2.2.1 rfl rfl⟩

end CleanM3u
